import Mathlib

/-!
Verification development for the promptbuilder repository.

The definitions below are a shallow embedding of the server-side brief
extraction pipeline (src/server/brief-extractor.js), its schema registry
(src/server/domain/brief-schema.js) and the stage rule engine
(src/server/index.js).  JavaScript strings are modelled as Lean `String`
(ASCII subset), JS numbers carrying confidences as `ℚ` (the source only
ever manipulates exact decimal constants), nullable values as `Option`,
and the injected model capability by its observable outcome.
-/

namespace PromptBuilder

/-- The fixed set of brief field keys, in the declaration order of
`briefFieldDefinitions` in src/server/domain/brief-schema.js. -/
inductive FieldKey
  | objective
  | audience
  | context
  | constraints
  | nonGoals
  | outputFormat
  | tone
  | examples
  | acceptanceCriteria
deriving DecidableEq, Repr, Fintype

/-- Embeds `briefFieldKeys = Object.keys(briefFieldDefinitions)`. -/
def briefFieldKeys : List FieldKey :=
  [.objective, .audience, .context, .constraints, .nonGoals,
   .outputFormat, .tone, .examples, .acceptanceCriteria]

/-! JS string primitives (ASCII fragment used by the source). -/

/-- JS regex `\s` / `String.trim` whitespace, restricted to the ASCII
whitespace characters that can occur in pipeline inputs. -/
def jsWhitespace (c : Char) : Bool :=
  c == ' ' || c == '\t' || c == '\n' || c == '\r' || c == '\x0b' || c == '\x0c'

/-- Drop leading and trailing whitespace from a character list. -/
def jsTrimList (l : List Char) : List Char :=
  ((l.dropWhile jsWhitespace).reverse.dropWhile jsWhitespace).reverse

/-- JS `String.prototype.trim`. -/
def jsTrim (s : String) : String :=
  ⟨jsTrimList s.toList⟩

/-- JS `String.prototype.toLowerCase` (ASCII). -/
def lowerStr (s : String) : String :=
  ⟨s.toList.map Char.toLower⟩

/-- Helper for `replace(re-for-whitespace-runs, single-space)`: the boolean
tracks whether the previous character was part of a whitespace run. -/
def collapseWsAux : Bool → List Char → List Char
  | _, [] => []
  | prevWs, c :: rest =>
    if jsWhitespace c then
      if prevWs then collapseWsAux true rest
      else ' ' :: collapseWsAux true rest
    else c :: collapseWsAux false rest

/-- Embeds `normalizeContent`: lowercase, collapse whitespace runs to a
single space, trim. -/
def normalizeContent (s : String) : String :=
  ⟨jsTrimList (collapseWsAux false (s.toList.map Char.toLower))⟩

/-- JS truthiness of a string: the empty string is falsy. -/
def jsTruthyStr (s : String) : Bool :=
  !(s == "")

/-- JS truthiness of a nullable string (`null` and the empty string are
falsy). -/
def jsTruthyOptStr : Option String → Bool
  | none => false
  | some s => jsTruthyStr s

/-- JS regex word character `\w`. -/
def isWordChar (c : Char) : Bool :=
  c.isAlphanum || c == '_'

/-- Try to consume `pat` at the head of the text, returning the remainder. -/
def consumeLit : List Char → List Char → Option (List Char)
  | [], rest => some rest
  | _ :: _, [] => none
  | p :: ps, c :: cs => if p == c then consumeLit ps cs else none

/-- Case-insensitive variant of `consumeLit` (the pattern is given in
lowercase). -/
def consumeLitCI : List Char → List Char → Option (List Char)
  | [], rest => some rest
  | _ :: _, [] => none
  | p :: ps, c :: cs => if p == c.toLower then consumeLitCI ps cs else none

/-- Scanning worker for `occursWord`: `prev` is the character immediately
before the current position (`none` at the start of the text). -/
def occursWordAux (pat : List Char) : Option Char → List Char → Bool
  | _, [] => false
  | prev, c :: cs =>
    ((prev.all fun p => !isWordChar p) &&
      (match consumeLit pat (c :: cs) with
       | some rest => rest.head?.all fun n => !isWordChar n
       | none => false))
    || occursWordAux pat (some c) cs

/-- Test for a regex of the form word-boundary, literal phrase,
word-boundary (the phrase starts and ends with word characters, as every
phrase used by the source does): the phrase occurs in `s` with no word
character directly before or after the occurrence. -/
def occursWord (pat : String) (s : String) : Bool :=
  occursWordAux pat.toList none s.toList

/-- Embeds `hasAny(text, patterns)` for a pattern given as a finite list of
word-bounded alternatives. -/
def hasAnyWord (alts : List String) (s : String) : Bool :=
  alts.any fun a => occursWord a s

/-- The apostrophe character. -/
def apos : Char := Char.ofNat 39

/-- The bullet character appearing in the statement-splitting regex. -/
def bulletChar : Char := Char.ofNat 8226

/-- The word with an apostrophe in the nonGoals pattern list. -/
def dontWord : String := String.mk ['d', 'o', 'n', apos, 't']

/-! Pattern tables from src/server/domain/brief-schema.js.  Each regex of
the source is an alternation of word-bounded phrases; `s?` endings and the
optional separators are expanded into explicit alternatives, and the
whitespace wildcards are expanded for whitespace-collapsed input (the
pipeline only applies these tests to `normalizeContent` output). -/

/-- Patterns for `objective`. -/
def objectiveAlts : List String :=
  ["objective", "goal", "i need", "i want", "task"]

/-- Patterns for `audience`. -/
def audienceAlts : List String :=
  ["audience", "for", "target", "reader", "readers", "user", "users"]

/-- Patterns for `context`. -/
def contextAlts : List String :=
  ["context", "background", "source", "data", "input"]

/-- Patterns for `constraints`. -/
def constraintsAlts : List String :=
  ["constraint", "must", "should", "limit", "avoid"]

/-- Patterns for `nonGoals`. -/
def nonGoalsAlts : List String :=
  ["non-goal", "non-goals", "out of scope", "do not", dontWord, "not include"]

/-- Patterns for `outputFormat`. -/
def outputFormatAlts : List String :=
  ["outputformat", "output format", "format", "json", "markdown", "table"]

/-- Patterns for `tone`. -/
def toneAlts : List String :=
  ["tone", "voice", "style", "formal", "casual"]

/-- Patterns for `examples`. -/
def exampleAlts : List String :=
  ["example", "sample", "few-shot", "like this"]

/-- Patterns for `acceptanceCriteria`. -/
def acceptanceAlts : List String :=
  ["acceptancecriteria", "acceptance criteria", "successcriteria",
   "success criteria", "definition of done", "quality bar"]

/-- Embeds `briefFieldPatterns[key]` as a test on normalized text. -/
def briefFieldPatternTest (key : FieldKey) (normalized : String) : Bool :=
  match key with
  | .objective => hasAnyWord objectiveAlts normalized
  | .audience => hasAnyWord audienceAlts normalized
  | .context => hasAnyWord contextAlts normalized
  | .constraints => hasAnyWord constraintsAlts normalized
  | .nonGoals => hasAnyWord nonGoalsAlts normalized
  | .outputFormat => hasAnyWord outputFormatAlts normalized
  | .tone => hasAnyWord toneAlts normalized
  | .examples => hasAnyWord exampleAlts normalized
  | .acceptanceCriteria => hasAnyWord acceptanceAlts normalized

/-- Embeds `explicitBriefFieldAliasMap`: field keys and their declared
aliases, mapped to the field key. -/
def aliasPairs : List (String × FieldKey) :=
  [("objective", .objective),
   ("audience", .audience),
   ("context", .context),
   ("constraints", .constraints),
   ("nonGoals", .nonGoals), ("non-goal", .nonGoals), ("non-goals", .nonGoals),
   ("non goals", .nonGoals),
   ("outputFormat", .outputFormat), ("output format", .outputFormat),
   ("tone", .tone),
   ("examples", .examples), ("example", .examples),
   ("acceptanceCriteria", .acceptanceCriteria),
   ("acceptance criteria", .acceptanceCriteria)]

/-- Lookup in the alias map (JS property access with an exact string key). -/
def aliasLookup (label : String) : Option FieldKey :=
  (aliasPairs.find? fun p => p.1 == label).map fun p => p.2

/-! Negation and routing phrase tables from src/server/brief-extractor.js. -/

/-- Alternatives of the constraints negation regexes (a negation word, one
space, an optional hard marker, then constraint or constraints; plus the
no-limits phrasing). -/
def constraintsNegAlts : List String :=
  ["no constraint", "no constraints", "no hard constraint", "no hard constraints",
   "without constraint", "without constraints", "without hard constraint",
   "without hard constraints", "not constraint", "not constraints",
   "not hard constraint", "not hard constraints", "no limit", "no limits"]

/-- Alternatives of the nonGoals negation regexes (a negation word, one
space, then a non-goals phrase with optional hyphen or space separator;
plus the nothing-out-of-scope phrasing). -/
def nonGoalsNegAlts : List String :=
  ["no nongoal", "no nongoals", "no non-goal", "no non-goals",
   "no non goal", "no non goals",
   "without nongoal", "without nongoals", "without non-goal", "without non-goals",
   "without non goal", "without non goals",
   "not nongoal", "not nongoals", "not non-goal", "not non-goals",
   "not non goal", "not non goals",
   "nothing is out of scope"]

/-- Embeds `detectFieldNegation(fieldKey, normalizedStatement)`. -/
def detectFieldNegation (key : FieldKey) (normalized : String) : Bool :=
  match key with
  | .constraints => hasAnyWord constraintsNegAlts normalized
  | .nonGoals => hasAnyWord nonGoalsNegAlts normalized
  | _ => false

/-- Alternatives of the step-two nonGoals routing regex (non-goals phrase
with optional hyphen or space separator, or out-of-scope phrasing). -/
def nonGoalsRouteAlts : List String :=
  ["nongoal", "nongoals", "non-goal", "non-goals", "non goal", "non goals",
   "out of scope"]

/-- Alternatives of the step-two constraints routing regex. -/
def constraintsRouteAlts : List String :=
  ["constraint", "constraints", "no limit", "no limits"]

/-- Alternatives of the implicit-audience regex: the word for, one space,
then one of the listed role or persona words (with plural and separator
variants expanded). -/
def audienceRoleAlts : List String :=
  ["for new", "for first-time", "for first time", "for firsttime",
   "for beginner", "for beginners", "for executive", "for executives",
   "for manager", "for managers", "for student", "for students",
   "for engineer", "for engineers", "for admin", "for admins",
   "for leader", "for leaders", "for team", "for teams",
   "for customer", "for customers", "for user", "for users"]

/-- Alternatives of the implicit-context cue regex. -/
def contextCueAlts : List String :=
  ["based on", "using", "from", "given"]

/-- Alternatives of the implicit-context data-ish noun regex. -/
def contextNounAlts : List String :=
  ["data", "doc", "docs", "document", "documents", "transcript", "report",
   "note", "notes", "dataset", "source", "background", "input"]

/-- Result of a single detection pass over one statement. -/
structure Detection where
  key : Option FieldKey
  value : Option String
  explicit : Bool
  implicit : Bool
deriving DecidableEq, Repr

/-- Embeds `detectImplicitField(statement, normalized)`. -/
def detectImplicitField (statement normalized : String) : Option Detection :=
  if hasAnyWord audienceRoleAlts normalized then
    some ⟨some .audience, some (jsTrim statement), false, true⟩
  else if hasAnyWord contextCueAlts normalized && hasAnyWord contextNounAlts normalized then
    some ⟨some .context, some (jsTrim statement), false, true⟩
  else none

/-! The leading-label match of `detectField` uses a lazy group for the
label, optional whitespace around the first usable colon, and a greedy
nonempty remainder.  It is embedded by scanning the colon occurrences left
to right, which is what the lazy label group amounts to. -/

/-- All decompositions of a character list at a colon occurrence, in
left-to-right order of the colon. -/
def splitAtColons : List Char → List (List Char × List Char)
  | [] => []
  | c :: cs =>
    (if c == ':' then [(([] : List Char), cs)] else []) ++
      (splitAtColons cs).map fun pq => (c :: pq.1, pq.2)

/-- For one colon occurrence with text `pre` before and `post` after it,
the label and value groups of the leading-label regex, if this colon
supports a match: the label is `pre` without its trailing whitespace run
(or, when `pre` is only whitespace, its first character), and the value is
`post` without its leading whitespace run (or, when `post` is only
whitespace, its final character); an empty `pre` or an empty `post` makes
the colon unusable. -/
def labelValueAt (pre post : List Char) : Option (List Char × List Char) :=
  if pre.isEmpty then none
  else
    let lab := (pre.reverse.dropWhile jsWhitespace).reverse
    let lab := if lab.isEmpty then [pre.headI] else lab
    let v := post.dropWhile jsWhitespace
    if !v.isEmpty then some (lab, v)
    else
      match post.getLast? with
      | some c => some (lab, [c])
      | none => none

/-- Embeds the leading-label match of `detectField` on the raw statement:
the label and value captures, when the statement matches. -/
def explicitLabelSplit (s : String) : Option (String × String) :=
  (splitAtColons s.toList).findSome? fun pq =>
    (labelValueAt pq.1 pq.2).map fun lv => (⟨lv.1⟩, ⟨lv.2⟩)

/-- On a pattern-fallback hit for audience or context, whether the
dedicated implicit detector would have classified the statement to the
same key (the implicit hint of `detectField`). -/
def implicitHint (key : FieldKey) (statement normalized : String) : Bool :=
  (key == .audience || key == .context) &&
    ((detectImplicitField statement normalized).map fun d => d.key) == some (some key)

/-- First field key, in declared order, whose pattern set matches the
normalized text (step three of `detectField`). -/
def firstPatternKey (normalized : String) : Option FieldKey :=
  briefFieldKeys.find? fun k => briefFieldPatternTest k normalized

/-- Embeds `detectField(statement, normalized)`. -/
def detectField (statement : String) (normalized : String) : Detection :=
  match explicitLabelSplit statement with
  | some lv =>
    let k := aliasLookup (jsTrim (lowerStr lv.1))
    ⟨k, some (jsTrim lv.2), k.isSome, false⟩
  | none =>
    if hasAnyWord nonGoalsRouteAlts normalized then
      ⟨some .nonGoals, some (jsTrim statement), false, false⟩
    else if hasAnyWord constraintsRouteAlts normalized then
      ⟨some .constraints, some (jsTrim statement), false, false⟩
    else
      match firstPatternKey normalized with
      | some k => ⟨some k, some (jsTrim statement), false, implicitHint k statement normalized⟩
      | none =>
        match detectImplicitField statement normalized with
        | some d => d
        | none => ⟨none, none, false, false⟩

/-! Transcript segmentation, from src/server/brief-extractor.js. -/

/-- A role-tagged turn. -/
structure Turn where
  role : String
  content : String
deriving DecidableEq, Repr

/-- Split a character list on a separator character. -/
def splitOnChar (sep : Char) : List Char → List (List Char)
  | [] => [[]]
  | c :: cs =>
    match splitOnChar sep cs with
    | h :: t => if c == sep then [] :: h :: t else (c :: h) :: t
    | [] => [[c]]

/-- Drop one trailing carriage return. -/
def stripCR (l : List Char) : List Char :=
  match l.getLast? with
  | some c => if c == '\r' then l.dropLast else l
  | none => l

/-- Embeds the line split on an optional carriage return followed by a
newline: split on newlines, then drop the carriage return that preceded
each newline (the final piece keeps any carriage return, since it is not
followed by a newline). -/
def jsSplitLines (s : String) : List String :=
  match (splitOnChar '\n' s.toList).reverse with
  | [] => []
  | lastPart :: initRev =>
    (initRev.reverse.map stripCR ++ [lastPart]).map fun l => ⟨l⟩

/-- Embeds the role-line match of `extractUserTurnsFromTranscript` on a
trimmed line: a user or assistant prefix (case-insensitive), optional
whitespace, a colon, optional whitespace, then the rest of the line.
Returns the lowercased role and the captured rest. -/
def parseRoleLine (line : String) : Option (String × String) :=
  let tryRole := fun (role : String) =>
    (consumeLitCI role.toList line.toList).bind fun rest =>
      match rest.dropWhile jsWhitespace with
      | ':' :: r2 => some (role, (⟨r2.dropWhile jsWhitespace⟩ : String))
      | _ => none
  (tryRole ("user")).orElse fun _ => tryRole ("assistant")

/-- The flush step of `extractUserTurnsFromTranscript`: append a turn for
the buffered lines when a role is active and the joined, trimmed content
is nonempty. -/
def flushTurn (cur : Option String) (buf : List String) (acc : List Turn) : List Turn :=
  match cur with
  | none => acc
  | some role =>
    let content := jsTrim (String.intercalate ("\n") buf)
    if content == "" then acc else acc ++ [⟨role, content⟩]

/-- The line loop of `extractUserTurnsFromTranscript`. -/
def turnsGo : Option String → List String → List Turn → List String → List Turn
  | cur, buf, acc, [] => flushTurn cur buf acc
  | cur, buf, acc, rawLine :: rest =>
    match parseRoleLine (jsTrim rawLine) with
    | some rc => turnsGo (some rc.1) [rc.2] (flushTurn cur buf acc) rest
    | none =>
      match cur with
      | some _ => turnsGo cur (buf ++ [rawLine]) acc rest
      | none => turnsGo none buf acc rest

/-- Embeds `extractUserTurnsFromTranscript`. -/
def extractUserTurnsFromTranscript (transcript : String) : List Turn :=
  let turns := turnsGo none [] [] (jsSplitLines transcript)
  if turns.isEmpty && jsTruthyStr (jsTrim transcript) then
    [⟨"user", jsTrim transcript⟩]
  else turns

/-- Embeds `segmentTurns`: only user turns feed field detection. -/
def segmentTurns (transcript : String) : List Turn :=
  (extractUserTurnsFromTranscript transcript).filter fun t => t.role == "user"

/-! Statement splitting.  The separator regex alternates a newline, a
bullet or list marker followed by whitespace, a numbered-list marker, or a
run of semicolons; the splitter scans left to right and cuts at each
separator match. -/

/-- Length of the separator match at the head of the text, if any,
following the alternation order of the source regex. -/
def sepLen (l : List Char) : Option Nat :=
  match l with
  | [] => none
  | c :: rest =>
    if c == '\n' then some 1
    else
      (if (c == bulletChar || c == '*' || c == '-') &&
          !(rest.takeWhile jsWhitespace).isEmpty then
        some (1 + (rest.takeWhile jsWhitespace).length)
      else none).orElse fun _ =>
      (let ds := (c :: rest).takeWhile Char.isDigit
       if !ds.isEmpty then
         match (c :: rest).drop ds.length with
         | '.' :: r3 =>
           let w := r3.takeWhile jsWhitespace
           if !w.isEmpty then some (ds.length + 1 + w.length) else none
         | _ => none
       else none).orElse fun _ =>
      (let sc := (c :: rest).takeWhile fun d => d == ';'
       if !sc.isEmpty then some sc.length else none)

/-- Fueled splitting loop: accumulate characters until a separator match,
cut there, and continue after the separator. -/
def splitRun : Nat → List Char → List Char → List (List Char)
  | _, acc, [] => [acc.reverse]
  | 0, acc, rest => [acc.reverse ++ rest]
  | fuel + 1, acc, c :: cs =>
    match sepLen (c :: cs) with
    | some n => acc.reverse :: splitRun fuel [] ((c :: cs).drop n)
    | none => splitRun fuel (c :: acc) cs

/-- Embeds `splitCandidateStatements`: split on the separator regex, trim
each piece, drop empty pieces. -/
def splitCandidateStatements (text : String) : List String :=
  ((splitRun (text.toList.length + 1) [] text.toList).map fun l =>
    jsTrim ⟨l⟩).filter fun s => jsTruthyStr s

/-- A raw candidate statement with its position, before classification. -/
structure Cand where
  statement : String
  turnIndex : Nat
  statementIndex : Nat
  normalized : String
deriving DecidableEq, Repr

/-- Embeds `extractCandidatesFromTurns`. -/
def extractCandidatesFromTurns (turns : List Turn) : List Cand :=
  turns.enum.flatMap fun ti =>
    (splitCandidateStatements ti.2.content).enum.map fun si =>
      ⟨si.2, ti.1, si.1, normalizeContent si.2⟩

/-- A classified candidate for one field. -/
structure CCand where
  statement : String
  turnIndex : Nat
  statementIndex : Nat
  normalized : String
  value : String
  explicit : Bool
  implicit : Bool
  negated : Bool
  normalizedValue : String
deriving DecidableEq, Repr

/-- Embeds `classifyFieldCandidates`: run detection on every candidate,
drop candidates with a null key or a falsy value, and collect the
survivors of each field key in order. -/
def classifyFieldCandidates (cands : List Cand) (key : FieldKey) : List CCand :=
  cands.filterMap fun c =>
    let d := detectField c.statement c.normalized
    match d.key, d.value with
    | some k, some v =>
      if k == key && jsTruthyStr v then
        some ⟨c.statement, c.turnIndex, c.statementIndex, c.normalized, v,
              d.explicit, d.implicit, detectFieldNegation k c.normalized,
              normalizeContent v⟩
      else none
    | _, _ => none

/-! Conflict resolution and confidence calibration. -/

/-- One resolved field of the brief. -/
structure FieldResult where
  value : Option String
  confidence : ℚ
  source : String
  assumptions : List String
deriving DecidableEq, Repr

/-- JS `Math.max` on two exact numbers. -/
def jsMax (a b : ℚ) : ℚ :=
  if a ≤ b then b else a

/-- JS `Math.min` on two exact numbers. -/
def jsMin (a b : ℚ) : ℚ :=
  if a ≤ b then a else b

/-- Embeds `clampConfidence`. -/
def clampConfidence (x : ℚ) : ℚ :=
  jsMax 0 (jsMin 1 x)

/-- Embeds `fieldConfidenceCalibrators[key]`, applied to the selected
candidate and the conflict flag. -/
def fieldConfidenceCalibrators (key : FieldKey) (selected : CCand) (hasConflict : Bool) : ℚ :=
  match key with
  | .objective =>
    clampConfidence ((if selected.explicit then 0.82 else 0.6) -
      (if hasConflict then 0.16 else 0))
  | .audience =>
    clampConfidence ((if selected.explicit then 0.78
        else if selected.implicit then 0.58 else 0.5) -
      (if hasConflict then 0.14 else 0))
  | .context =>
    clampConfidence ((if selected.explicit then 0.76
        else if selected.implicit then 0.56 else 0.48) -
      (if hasConflict then 0.14 else 0))
  | .constraints =>
    clampConfidence ((if selected.explicit then 0.8 else 0.63) -
      (if selected.negated then 0.08 else 0) - (if hasConflict then 0.12 else 0))
  | .nonGoals =>
    clampConfidence ((if selected.explicit then 0.78 else 0.62) -
      (if selected.negated then 0.08 else 0) - (if hasConflict then 0.12 else 0))
  | .outputFormat =>
    clampConfidence ((if selected.explicit then 0.8 else 0.55) -
      (if hasConflict then 0.12 else 0))
  | .tone =>
    clampConfidence ((if selected.explicit then 0.72 else 0.5) -
      (if hasConflict then 0.12 else 0))
  | .examples =>
    clampConfidence ((if selected.explicit then 0.74 else 0.5) -
      (if hasConflict then 0.12 else 0))
  | .acceptanceCriteria =>
    clampConfidence ((if selected.explicit then 0.75 else 0.52) -
      (if hasConflict then 0.12 else 0))

/-- An unresolved conflict record. -/
structure Conflict where
  field : FieldKey
  selectedValue : Option String
  reason : String
  candidates : List String
deriving DecidableEq, Repr

/-- The no-evidence field result. -/
def noEvidenceResult : FieldResult :=
  ⟨none, 0, "heuristic", ["No direct user evidence found for this field."]⟩

/-- Reason text for a polarity conflict. -/
def polarityReason : String :=
  "Contradictory statements across turns (affirmed vs negated). Latest user statement was prioritized."

/-- Reason text for a value conflict. -/
def valueReason : String :=
  "Multiple competing values observed across turns. Latest user statement was prioritized."

/-- Assumption text attached when the latest candidate negates the field. -/
def negationAssumption : String :=
  "Latest user turn explicitly negates this field."

/-- Assumption text for an implicit winner. -/
def implicitAssumption : String :=
  "Inferred from implicit phrasing in user statements."

/-- Assumption text for a pattern-matched winner. -/
def patternAssumption : String :=
  "Inferred from nearby phrasing using heuristic pattern matching."

/-- Polarity-conflict flag of `resolveFieldConflicts`: the negated flag of
some candidate differs from that of the selected candidate. -/
def polarityConflictB (values : List CCand) (selected : CCand) : Bool :=
  values.any fun e => e.negated != selected.negated

/-- Value-conflict flag of `resolveFieldConflicts`: the distinct normalized
values of the non-negated candidates number more than one. -/
def valueConflictB (values : List CCand) : Bool :=
  decide (1 < (((values.filter fun e => !e.negated).map fun e => e.normalizedValue)).eraseDups.length)

/-- Either conflict flag. -/
def conflictB (values : List CCand) (selected : CCand) : Bool :=
  polarityConflictB values selected || valueConflictB values

/-- Embeds the per-key body of `resolveFieldConflicts`: the resolved field
result and the (zero or one) unresolved conflicts recorded for the key. -/
def resolveFieldEntry (key : FieldKey) (values : List CCand) : FieldResult × List Conflict :=
  match values.getLast? with
  | none => (noEvidenceResult, [])
  | some selected =>
    let hasConflict := conflictB values selected
    let field : FieldResult :=
      if selected.negated && (key == .constraints || key == .nonGoals) then
        ⟨none, fieldConfidenceCalibrators key selected hasConflict, "heuristic",
         [negationAssumption]⟩
      else
        ⟨some selected.value, fieldConfidenceCalibrators key selected hasConflict,
         "heuristic",
         if !selected.explicit then
           [if selected.implicit then implicitAssumption else patternAssumption]
         else []⟩
    let conflicts : List Conflict :=
      if hasConflict then
        [⟨key, field.value,
          if polarityConflictB values selected then polarityReason else valueReason,
          values.map fun e => e.value⟩]
      else []
    (field, conflicts)

/-- Embeds `resolveFieldConflicts`: the field result map and the conflicts
accumulated over the keys in declared order. -/
def resolveFieldConflicts (classified : FieldKey → List CCand) :
    (FieldKey → FieldResult) × List Conflict :=
  (fun key => (resolveFieldEntry key (classified key)).1,
   briefFieldKeys.flatMap fun key => (resolveFieldEntry key (classified key)).2)

/-- Embeds `extractHeuristicBrief`. -/
def extractHeuristicBrief (transcript : String) :
    (FieldKey → FieldResult) × List Conflict :=
  resolveFieldConflicts
    (classifyFieldCandidates (extractCandidatesFromTurns (segmentTurns transcript)))

/-! The merge arbiter and the model capability.  The injected model call
and the JSON decoding of its reply (`parseNormalizerResponse`, that is
JSON.parse after `stripJsonCodeFence`) are modelled by their observable
outcome: the call throws, or its text fails to decode to a JSON object, or
it decodes to an object of the normalizer shape. -/

/-- A per-field judgment decoded from the model reply. -/
structure LlmField where
  value : Option String
  confidence : ℚ
  assumptions : Option (List String)
deriving DecidableEq, Repr

/-- A decoded normalizer reply: any of its parts may be missing, as the
source guards every access. -/
structure ParsedModel where
  fields : FieldKey → Option LlmField
  unresolvedConflicts : Option (List Conflict)
  globalAssumptions : Option (List String)

/-- Observable outcome of invoking the model capability. -/
inductive ModelOutcome
  | failed
  | unparsed
  | parsed (p : ParsedModel)

/-- Value read from a nullable model field judgment. -/
def llmValueOf : Option LlmField → Option String
  | none => none
  | some f => f.value

/-- Confidence read from a nullable model field judgment (missing data
coerces to zero). -/
def llmConfOf : Option LlmField → ℚ
  | none => 0
  | some f => f.confidence

/-- Assumption list read from a nullable model field judgment (anything
that is not a list coerces to the empty list). -/
def llmAssumOf : Option LlmField → List String
  | none => []
  | some f => f.assumptions.getD []

/-- The dominance condition of `mergeField`: the model provided a truthy
value and its confidence reaches nine tenths of the heuristic one. -/
def mergeAdopts (heuristicField : FieldResult) (llmField : Option LlmField) : Bool :=
  jsTruthyOptStr (llmValueOf llmField) &&
    decide (heuristicField.confidence * 0.9 ≤ llmConfOf llmField)

/-- Embeds `mergeField(heuristicField, llmField)`. -/
def mergeField (heuristicField : FieldResult) (llmField : Option LlmField) : FieldResult :=
  let heuristicConfidence := heuristicField.confidence
  let llmConfidence := llmConfOf llmField
  let llmValue := llmValueOf llmField
  if mergeAdopts heuristicField llmField then
    ⟨llmValue, jsMax 0 (jsMin 1 llmConfidence), "llm", llmAssumOf llmField⟩
  else
    ⟨heuristicField.value, jsMax 0 (jsMin 1 heuristicConfidence), "heuristic",
     heuristicField.assumptions⟩

/-- A role-tagged message object. -/
structure Message where
  role : String
  content : String
deriving DecidableEq, Repr

/-- Embeds `normalizeHistoryInput`: the message history, the transcript
text, and the well-formed-messages flag. -/
def normalizeHistoryInput (transcript : String) (messages : Option (List Message)) :
    List Message × String × Bool :=
  let hasMessageObjects := messages.isSome
  let messageHistory : List Message :=
    match messages with
    | some ms => ms
    | none =>
      if jsTruthyStr (jsTrim transcript) then [⟨"user", jsTrim transcript⟩] else []
  let transcriptText :=
    if jsTruthyStr (jsTrim transcript) then jsTrim transcript
    else String.intercalate ("\n")
      (messageHistory.map fun m => m.role ++ ": " ++ m.content)
  (messageHistory, transcriptText, hasMessageObjects)

/-- The full extraction response. -/
structure Response where
  fields : List (FieldKey × FieldResult)
  brief : List (FieldKey × Option String)
  unresolvedConflicts : List Conflict
  globalAssumptions : List String
  normalizationMethod : String

/-- Embeds `extractBrief`: heuristic extraction, then the optional model
arbitration with graceful fallback.  `cap` is the injected capability:
`none` when no capability function is supplied, otherwise the outcome of
the single call the source makes. -/
def extractBrief (transcript : String) (messages : Option (List Message))
    (cap : Option ModelOutcome) : Response :=
  let transcriptText := (normalizeHistoryInput transcript messages).2.1
  let heuristic := extractHeuristicBrief transcriptText
  let base : Response :=
    { fields := briefFieldKeys.map fun key => (key, heuristic.1 key)
      brief := briefFieldKeys.map fun key => (key, (heuristic.1 key).value)
      unresolvedConflicts := heuristic.2
      globalAssumptions := []
      normalizationMethod := "heuristic_fallback" }
  match cap with
  | none => base
  | some .failed => base
  | some .unparsed => base
  | some (.parsed p) =>
    let mergedFields := briefFieldKeys.map fun key =>
      (key, mergeField (heuristic.1 key) (p.fields key))
    { fields := mergedFields
      brief := mergedFields.map fun kv => (kv.1, kv.2.value)
      unresolvedConflicts := heuristic.2 ++ p.unresolvedConflicts.getD []
      globalAssumptions := p.globalAssumptions.getD []
      normalizationMethod := "llm_assisted" }

/-! Stage definitions and the stage rule engine. -/

/-- The stage keys, in the declaration order shared by STAGE_DEFINITIONS of
the server (src/server/index.js) and by `stageDefinitions` of the schema
registry (src/server/domain/brief-schema.js). -/
inductive StageKey
  | objective
  | audience
  | contextData
  | constraints
  | outputFormat
  | qualityBar
  | examples
deriving DecidableEq, Repr, Fintype

/-- A confidence threshold on one field. -/
structure FieldThreshold where
  fieldKey : FieldKey
  minConfidence : ℚ
deriving DecidableEq, Repr

/-- A rule set among the completion rules of a stage. -/
structure RuleSet where
  allOf : Option (List FieldThreshold)
  anyOf : Option (List FieldThreshold)
deriving DecidableEq, Repr

/-- A stage definition of the schema registry, with completion rules. -/
structure SchemaStageDefinition where
  key : StageKey
  label : String
  required : Bool
  requiredFields : List String
  completionRules : List RuleSet
  doneCriteria : String
  followUpQuestion : String

/-- Embeds `stageDefinitions` of src/server/domain/brief-schema.js (the
free-text members are kept, abridged to their opening words, as they never
influence control flow). -/
def stageDefinitionsList : List SchemaStageDefinition :=
  [{ key := .objective, label := "Objective", required := true,
     requiredFields := ["task", "successOutcome"],
     completionRules := [⟨some [⟨.objective, 0.45⟩], none⟩],
     doneCriteria := "Complete when the user clearly states what they want",
     followUpQuestion := "What exact outcome do you want" },
   { key := .audience, label := "Audience", required := true,
     requiredFields := ["readerOrUser", "skillLevelOrRole"],
     completionRules := [⟨some [⟨.audience, 0.4⟩], none⟩],
     doneCriteria := "Complete when the intended audience or end-user is named",
     followUpQuestion := "Who is the output for" },
   { key := .contextData, label := "Context/Data", required := true,
     requiredFields := ["background", "inputsOrSources"],
     completionRules := [⟨none, some [⟨.context, 0.4⟩]⟩],
     doneCriteria := "Complete when the user provides relevant background",
     followUpQuestion := "What background information should the model use" },
   { key := .constraints, label := "Constraints", required := true,
     requiredFields := ["limits", "nonGoalsOrBoundaries"],
     completionRules := [⟨none, some [⟨.constraints, 0.4⟩, ⟨.nonGoals, 0.35⟩]⟩],
     doneCriteria := "Complete when hard constraints are clear",
     followUpQuestion := "What constraints should I enforce" },
   { key := .outputFormat, label := "Output Format", required := true,
     requiredFields := ["structure", "deliveryStyle"],
     completionRules := [⟨none, some [⟨.outputFormat, 0.4⟩, ⟨.tone, 0.35⟩]⟩],
     doneCriteria := "Complete when expected output structure is explicit",
     followUpQuestion := "How should the final answer be formatted" },
   { key := .qualityBar, label := "Quality Bar", required := false,
     requiredFields := ["evaluationCriteria"],
     completionRules := [⟨some [⟨.acceptanceCriteria, 0.35⟩], none⟩],
     doneCriteria := "Complete when measurable quality criteria are provided",
     followUpQuestion := "What quality bar should the response meet" },
   { key := .examples, label := "Examples", required := false,
     requiredFields := ["sampleInputOrOutput"],
     completionRules := [⟨some [⟨.examples, 0.35⟩], none⟩],
     doneCriteria := "Complete when there is at least one example",
     followUpQuestion := "Do you have an example of a good output" }]

/-- A stage together with its computed completion flag. -/
structure StageState where
  key : StageKey
  label : String
  required : Bool
  requiredFields : List String
  doneCriteria : String
  followUpQuestion : String
  complete : Bool
deriving DecidableEq, Repr

/-- The derived stage progress. -/
structure StageProgress where
  stages : List StageState
  completedRequired : Nat
  requiredTotal : Nat
  requiredCompleteness : ℚ
  overallCompleteness : ℚ
  missingRequiredStageKeys : List StageKey
  canGenerateFinalPrompt : Bool

/-- Embeds `hasHighConfidence` of `inspectConversationStages`: the value of
the field is truthy and its confidence reaches the threshold. -/
def hasHighConfidence (fields : FieldKey → FieldResult) (key : FieldKey)
    (threshold : ℚ) : Bool :=
  jsTruthyOptStr (fields key).value && decide (threshold ≤ (fields key).confidence)

/-- Embeds the `stageChecks` table of `inspectConversationStages`
(src/server/index.js). -/
def stageCheck (fields : FieldKey → FieldResult) : StageKey → Bool
  | .objective => hasHighConfidence fields .objective 0.45
  | .audience => hasHighConfidence fields .audience 0.4
  | .contextData => hasHighConfidence fields .context 0.4
  | .constraints =>
    hasHighConfidence fields .constraints 0.4 || hasHighConfidence fields .nonGoals 0.35
  | .outputFormat =>
    hasHighConfidence fields .outputFormat 0.4 || hasHighConfidence fields .tone 0.35
  | .qualityBar => hasHighConfidence fields .acceptanceCriteria 0.35
  | .examples => hasHighConfidence fields .examples 0.35

/-- Embeds MIN_COMPLETENESS_THRESHOLD. -/
def MIN_COMPLETENESS_THRESHOLD : ℚ := 0.72

/-- Embeds `inspectConversationStages` (src/server/index.js), over the
final field result map. -/
def inspectConversationStages (fields : FieldKey → FieldResult) : StageProgress :=
  let stages := stageDefinitionsList.map fun d =>
    ({ key := d.key, label := d.label, required := d.required,
       requiredFields := d.requiredFields, doneCriteria := d.doneCriteria,
       followUpQuestion := d.followUpQuestion,
       complete := stageCheck fields d.key } : StageState)
  let completedRequired := (stages.filter fun s => s.required && s.complete).length
  let requiredTotal := (stageDefinitionsList.filter fun d => d.required).length
  let optionalTotal := stages.length - requiredTotal
  let completedOptional := (stages.filter fun s => !s.required && s.complete).length
  let requiredCompleteness : ℚ :=
    if requiredTotal ≠ 0 then (completedRequired : ℚ) / (requiredTotal : ℚ) else 1
  let overallCompleteness : ℚ :=
    ((completedRequired : ℚ) + (completedOptional : ℚ) * 0.5) /
      ((requiredTotal : ℚ) + (optionalTotal : ℚ) * 0.5)
  { stages := stages
    completedRequired := completedRequired
    requiredTotal := requiredTotal
    requiredCompleteness := requiredCompleteness
    overallCompleteness := overallCompleteness
    missingRequiredStageKeys :=
      ((stages.filter fun s => s.required && !s.complete).map fun s => s.key)
    canGenerateFinalPrompt := decide (MIN_COMPLETENESS_THRESHOLD ≤ requiredCompleteness) }

/-! Declarative rule semantics.  These definitions follow the
words of the specification for evaluating the completion rules of a stage;
claim C3 compares them against the hard-coded checks of the engine. -/

/-- Modelled from the spec: a FieldThreshold is met iff the resolved value
of the field is present and its confidence is at least the minConfidence of
the threshold. -/
def fieldThresholdMet (fields : FieldKey → FieldResult) (t : FieldThreshold) : Bool :=
  jsTruthyOptStr (fields t.fieldKey).value &&
    decide (t.minConfidence ≤ (fields t.fieldKey).confidence)

/-- Modelled from the spec: a RuleSet evaluates true iff it has no allOf or
every listed FieldThreshold is met, and it has no anyOf or at least one
listed FieldThreshold is met. -/
def ruleSetSatisfied (fields : FieldKey → FieldResult) (rs : RuleSet) : Bool :=
  (match rs.allOf with
   | none => true
   | some l => l.all fun t => fieldThresholdMet fields t) &&
  (match rs.anyOf with
   | none => true
   | some l => l.any fun t => fieldThresholdMet fields t)

/-- Modelled from the spec: a stage is complete iff at least one of its
RuleSets evaluates true. -/
def stageCompleteByRules (fields : FieldKey → FieldResult)
    (d : SchemaStageDefinition) : Bool :=
  d.completionRules.any fun rs => ruleSetSatisfied fields rs

/-! Fixtures used by concrete instances and witnesses. -/

/-- The negation-override transcript of the specification. -/
def negationTranscript : String :=
  "user: constraints: Keep it concise and under 150 words.\nuser: No constraints for now."

/-- A statement with a leading label that matches no known field alias while
a step-three pattern (the constraints word must) matches its normalized
text. -/
def c8Statement : String := "deadline: must be done by friday"

/-- A decoded model reply carrying one confident objective judgment. -/
def c7ParsedModel : ParsedModel :=
  { fields := fun k =>
      if k = .objective then some ⟨some ("Draft an onboarding FAQ."), 0.5, some []⟩ else none
    unresolvedConflicts := some []
    globalAssumptions := some [] }

/-- Field map with exactly the three required stages objective, audience
and contextData complete. -/
def fieldsThreeComplete : FieldKey → FieldResult := fun k =>
  match k with
  | .objective => ⟨some ("o"), 1, "heuristic", []⟩
  | .audience => ⟨some ("a"), 1, "heuristic", []⟩
  | .context => ⟨some ("c"), 1, "heuristic", []⟩
  | _ => ⟨none, 0, "heuristic", []⟩

/-- Field map with exactly the four required stages objective, audience,
contextData and outputFormat complete. -/
def fieldsFourComplete : FieldKey → FieldResult := fun k =>
  match k with
  | .objective => ⟨some ("o"), 1, "heuristic", []⟩
  | .audience => ⟨some ("a"), 1, "heuristic", []⟩
  | .context => ⟨some ("c"), 1, "heuristic", []⟩
  | .outputFormat => ⟨some ("f"), 1, "heuristic", []⟩
  | _ => ⟨none, 0, "heuristic", []⟩

/-- Earlier explicit objective candidate of the latest-turn example. -/
def c4MemoCand : CCand :=
  ⟨"objective: Draft a formal policy memo.", 0, 0,
   "objective: draft a formal policy memo.", "Draft a formal policy memo.",
   true, false, false, "draft a formal policy memo."⟩

/-- Later explicit objective candidate of the latest-turn example. -/
def c4FaqCand : CCand :=
  ⟨"objective: Actually make it a concise FAQ for onboarding.", 1, 0,
   "objective: actually make it a concise faq for onboarding.",
   "Actually make it a concise FAQ for onboarding.",
   true, false, false, "actually make it a concise faq for onboarding."⟩

/-- Affirmed explicit constraints candidate of the negation example. -/
def c5AffCand : CCand :=
  ⟨"constraints: Keep it concise and under 150 words.", 0, 0,
   "constraints: keep it concise and under 150 words.",
   "Keep it concise and under 150 words.", true, false, false,
   "keep it concise and under 150 words."⟩

/-- Negated constraints candidate of the negation example. -/
def c5NegCand : CCand :=
  ⟨"No constraints for now.", 1, 0, "no constraints for now.",
   "No constraints for now.", false, false, true, "no constraints for now."⟩

/-! Helper lemmas. -/

/-- Clamping with JS max and min lands in the unit interval. -/
lemma clamp01 (x : ℚ) : 0 ≤ jsMax 0 (jsMin 1 x) ∧ jsMax 0 (jsMin 1 x) ≤ 1 := by
  unfold jsMax jsMin
  split_ifs <;> constructor <;> linarith

/-- Every calibrator output lies in the unit interval. -/
lemma calibrator_bounds (key : FieldKey) (selected : CCand) (c : Bool) :
    0 ≤ fieldConfidenceCalibrators key selected c ∧
      fieldConfidenceCalibrators key selected c ≤ 1 := by
  cases key <;> exact clamp01 _

/-- Every calibrator output is strictly positive. -/
lemma calibrator_pos (key : FieldKey) (selected : CCand) (c : Bool) :
    0 < fieldConfidenceCalibrators key selected c := by
  obtain ⟨st, ti, si, no, v, ex, im, ng, nv⟩ := selected
  cases key <;> cases ex <;> cases im <;> cases ng <;> cases c <;>
    norm_num [fieldConfidenceCalibrators, clampConfidence, jsMax, jsMin]

/-- Resolved confidences lie in the unit interval. -/
lemma resolve_conf_bounds (key : FieldKey) (values : List CCand) :
    0 ≤ (resolveFieldEntry key values).1.confidence ∧
      (resolveFieldEntry key values).1.confidence ≤ 1 := by
  unfold resolveFieldEntry
  cases values.getLast? with
  | none => norm_num [noEvidenceResult]
  | some selected =>
    simp only
    split <;> exact calibrator_bounds _ _ _

/-- Merged confidences lie in the unit interval. -/
lemma merge_conf_bounds (h : FieldResult) (l : Option LlmField) :
    0 ≤ (mergeField h l).confidence ∧ (mergeField h l).confidence ≤ 1 := by
  unfold mergeField
  split <;> exact clamp01 _

/-- Every resolved heuristic field is tagged with the heuristic source. -/
lemma resolve_source (key : FieldKey) (values : List CCand) :
    (resolveFieldEntry key values).1.source = "heuristic" := by
  unfold resolveFieldEntry
  cases values.getLast? with
  | none => rfl
  | some selected => simp only; split <;> rfl

/-- A merged field carries the heuristic or the llm source tag. -/
lemma merge_source (h : FieldResult) (l : Option LlmField) :
    (mergeField h l).source = "heuristic" ∨ (mergeField h l).source = "llm" := by
  unfold mergeField
  split
  · right; rfl
  · left; rfl

/-- Heuristic extraction field bounds, stated over the full pipeline. -/
lemma heuristic_field_bounds (tt : String) (k : FieldKey) :
    0 ≤ ((extractHeuristicBrief tt).1 k).confidence ∧
      ((extractHeuristicBrief tt).1 k).confidence ≤ 1 := by
  simp only [extractHeuristicBrief, resolveFieldConflicts]
  exact resolve_conf_bounds _ _

/-- Heuristic extraction source tag, stated over the full pipeline. -/
lemma heuristic_field_source (tt : String) (k : FieldKey) :
    ((extractHeuristicBrief tt).1 k).source = "heuristic" := by
  simp only [extractHeuristicBrief, resolveFieldConflicts]
  exact resolve_source _ _

/-- A model capability that throws is handled as if absent. -/
lemma extractBrief_failed_eq (t : String) (m : Option (List Message)) :
    extractBrief t m (some .failed) = extractBrief t m none := rfl

/-- A model reply that does not decode is handled as if absent. -/
lemma extractBrief_unparsed_eq (t : String) (m : Option (List Message)) :
    extractBrief t m (some .unparsed) = extractBrief t m none := rfl

/-- Boolean form of the dominance condition being violated. -/
lemma resolve_cond_false (key : FieldKey) (selected : CCand)
    (h : ¬(selected.negated = true ∧ (key = .constraints ∨ key = .nonGoals))) :
    (selected.negated && (key == FieldKey.constraints || key == FieldKey.nonGoals)) = false := by
  cases hneg : selected.negated with
  | false => simp
  | true =>
    have hk : ¬(key = .constraints ∨ key = .nonGoals) := fun hk => h ⟨hneg, hk⟩
    cases key <;> simp_all

/-! Claim theorems. -/

/-- C1: Merge Arbiter dominance rule.  For every heuristic FieldResult and
nullable parsed model judgment (both with confidence in the unit interval,
as the data model prescribes), the merged result adopts the model value,
confidence and assumptions exactly when the model value is non-empty and
the model confidence is at least nine tenths of the heuristic confidence;
otherwise the heuristic value, confidence and assumptions are returned
unchanged. -/
theorem mergeField_dominance (h : FieldResult) (l : Option LlmField)
    (hh0 : 0 ≤ h.confidence) (hh1 : h.confidence ≤ 1)
    (hl0 : 0 ≤ llmConfOf l) (hl1 : llmConfOf l ≤ 1) :
    (jsTruthyOptStr (llmValueOf l) = true ∧ h.confidence * 0.9 ≤ llmConfOf l →
      mergeField h l = ⟨llmValueOf l, llmConfOf l, "llm", llmAssumOf l⟩) ∧
    (¬(jsTruthyOptStr (llmValueOf l) = true ∧ h.confidence * 0.9 ≤ llmConfOf l) →
      mergeField h l = ⟨h.value, h.confidence, "heuristic", h.assumptions⟩) := by
  have hminl : jsMin 1 (llmConfOf l) = llmConfOf l := by
    unfold jsMin; split
    · exact le_antisymm (by assumption) hl1
    · rfl
  have hmaxl : jsMax 0 (llmConfOf l) = llmConfOf l := by
    unfold jsMax; split
    · rfl
    · exact absurd hl0 (by assumption)
  have hminh : jsMin 1 h.confidence = h.confidence := by
    unfold jsMin; split
    · exact le_antisymm (by assumption) hh1
    · rfl
  have hmaxh : jsMax 0 h.confidence = h.confidence := by
    unfold jsMax; split
    · rfl
    · exact absurd hh0 (by assumption)
  constructor
  · intro hc
    have hb : mergeAdopts h l = true := by
      unfold mergeAdopts
      rw [hc.1]
      simp [hc.2]
    unfold mergeField
    rw [hb]
    simp [hminl, hmaxl]
  · intro hc
    have hb : mergeAdopts h l = false := by
      unfold mergeAdopts
      cases hv : jsTruthyOptStr (llmValueOf l) with
      | false => simp
      | true =>
        simp only [Bool.true_and, decide_eq_false_iff_not]
        intro hle
        exact hc ⟨hv, hle⟩
    unfold mergeField
    rw [hb]
    simp [hminh, hmaxh]

/-- Witness for C1: the two dominance examples of the specification, with
heuristic confidence six tenths the model loses at confidence one half and
wins at confidence six tenths. -/
theorem mergeField_dominance_witness :
    mergeField ⟨some ("memo"), 0.6, "heuristic", []⟩ (some ⟨some ("faq"), 0.5, some []⟩) =
      ⟨some ("memo"), 0.6, "heuristic", []⟩ ∧
    mergeField ⟨some ("memo"), 0.6, "heuristic", []⟩ (some ⟨some ("faq"), 0.6, some []⟩) =
      ⟨some ("faq"), 0.6, "llm", []⟩ := by
  constructor
  · exact (mergeField_dominance ⟨some ("memo"), 0.6, "heuristic", []⟩
      (some ⟨some ("faq"), 0.5, some []⟩) (by norm_num) (by norm_num)
      (by norm_num [llmConfOf]) (by norm_num [llmConfOf])).2
      (by rintro ⟨hv, hc⟩; norm_num [llmConfOf] at hc)
  · exact (mergeField_dominance ⟨some ("memo"), 0.6, "heuristic", []⟩
      (some ⟨some ("faq"), 0.6, some []⟩) (by norm_num) (by norm_num)
      (by norm_num [llmConfOf]) (by norm_num [llmConfOf])).1
      ⟨by decide, by norm_num [llmConfOf]⟩

/-- C2: stage-progress aggregation and gating.  Against the fixed stage
set, requiredTotal is five, there are seven stages, completedRequired
counts the complete required stages, requiredCompleteness is
completedRequired over five, overallCompleteness weighs optional stages at
one half, gating holds iff requiredCompleteness reaches 0.72, and hence
three complete required stages give 0.6 and no gate while four give 0.8
and the gate. -/
theorem inspectConversationStages_aggregation (fields : FieldKey → FieldResult) :
    (inspectConversationStages fields).requiredTotal = 5 ∧
    (inspectConversationStages fields).stages.length = 7 ∧
    (inspectConversationStages fields).completedRequired =
      ((inspectConversationStages fields).stages.filter fun s => s.required && s.complete).length ∧
    (inspectConversationStages fields).requiredCompleteness =
      ((inspectConversationStages fields).completedRequired : ℚ) / 5 ∧
    (inspectConversationStages fields).overallCompleteness =
      (((inspectConversationStages fields).completedRequired : ℚ) +
        0.5 * (((inspectConversationStages fields).stages.filter fun s => !s.required && s.complete).length : ℚ)) /
        ((5 : ℚ) + 0.5 * 2) ∧
    ((inspectConversationStages fields).canGenerateFinalPrompt = true ↔
      (0.72 : ℚ) ≤ (inspectConversationStages fields).requiredCompleteness) ∧
    ((inspectConversationStages fields).completedRequired = 3 →
      (inspectConversationStages fields).requiredCompleteness = 0.6 ∧
      (inspectConversationStages fields).canGenerateFinalPrompt = false) ∧
    ((inspectConversationStages fields).completedRequired = 4 →
      (inspectConversationStages fields).requiredCompleteness = 0.8 ∧
      (inspectConversationStages fields).canGenerateFinalPrompt = true) := by
  have hrt : (inspectConversationStages fields).requiredTotal = 5 := by
    simp only [inspectConversationStages]; decide
  have hlen : (inspectConversationStages fields).stages.length = 7 := by
    simp only [inspectConversationStages, List.length_map]; decide
  have hcr : (inspectConversationStages fields).completedRequired =
      ((inspectConversationStages fields).stages.filter fun s => s.required && s.complete).length := rfl
  have h5 : (stageDefinitionsList.filter fun d => d.required).length = 5 := by decide
  have h7 : stageDefinitionsList.length = 7 := by decide
  have hrc : (inspectConversationStages fields).requiredCompleteness =
      ((inspectConversationStages fields).completedRequired : ℚ) / 5 := by
    simp only [inspectConversationStages, h5]
    norm_num
  have hov : (inspectConversationStages fields).overallCompleteness =
      (((inspectConversationStages fields).completedRequired : ℚ) +
        0.5 * (((inspectConversationStages fields).stages.filter fun s => !s.required && s.complete).length : ℚ)) /
        ((5 : ℚ) + 0.5 * 2) := by
    simp only [inspectConversationStages, h5, List.length_map, h7]
    norm_num [mul_comm]
  have hcan : (inspectConversationStages fields).canGenerateFinalPrompt =
      decide (MIN_COMPLETENESS_THRESHOLD ≤ (inspectConversationStages fields).requiredCompleteness) := rfl
  refine ⟨hrt, hlen, hcr, hrc, hov, ?_, ?_, ?_⟩
  · rw [hcan]
    simp [MIN_COMPLETENESS_THRESHOLD]
  · intro h3
    constructor
    · rw [hrc, h3]; norm_num
    · rw [hcan, hrc, h3]
      norm_num [MIN_COMPLETENESS_THRESHOLD]
  · intro h4
    constructor
    · rw [hrc, h4]; norm_num
    · rw [hcan, hrc, h4]
      norm_num [MIN_COMPLETENESS_THRESHOLD]

/-- Witness for C2: on a field map with exactly three required stages
complete the gate is closed, and with four it is open. -/
theorem inspectConversationStages_aggregation_witness :
    (inspectConversationStages fieldsThreeComplete).canGenerateFinalPrompt = false ∧
    (inspectConversationStages fieldsFourComplete).canGenerateFinalPrompt = true := by
  have h3 : (inspectConversationStages fieldsThreeComplete).completedRequired = 3 := by
    norm_num +decide [inspectConversationStages, stageCheck, hasHighConfidence,
      stageDefinitionsList, fieldsThreeComplete, jsTruthyOptStr, jsTruthyStr, List.filter]
  have h4 : (inspectConversationStages fieldsFourComplete).completedRequired = 4 := by
    norm_num +decide [inspectConversationStages, stageCheck, hasHighConfidence,
      stageDefinitionsList, fieldsFourComplete, jsTruthyOptStr, jsTruthyStr, List.filter]
  exact ⟨((inspectConversationStages_aggregation fieldsThreeComplete).2.2.2.2.2.2.1 h3).2,
    ((inspectConversationStages_aggregation fieldsFourComplete).2.2.2.2.2.2.2 h4).2⟩

/-- C3: the per-stage complete flags computed by the engine (hard-coded
checks of src/server/index.js) coincide, for every field map, with the
declarative evaluation of the completionRules of the schema registry. -/
theorem stageChecks_match_declarative_rules (fields : FieldKey → FieldResult) :
    ((inspectConversationStages fields).stages.map fun s => (s.key, s.complete)) =
      stageDefinitionsList.map fun d => (d.key, stageCompleteByRules fields d) := by
  simp only [inspectConversationStages, stageDefinitionsList, List.map, stageCheck,
    stageCompleteByRules, ruleSetSatisfied, fieldThresholdMet, hasHighConfidence,
    List.any, List.all, Bool.and_true, Bool.true_and, Bool.or_false, Bool.false_or]

/-- C4: latest-candidate-wins.  The per-key resolution used by the
heuristic brief picks the last candidate; when that winner is not a
negated constraints or nonGoals case the resolved value is exactly the
winner text, and when the non-negated candidates carry more than one
distinct normalized value while every negated flag agrees with the winner,
a single conflict for the field is recorded with the multiple-competing-
values reason naming the prioritized latest statement. -/
theorem resolveFieldEntry_latest_wins (key : FieldKey) (values : List CCand)
    (selected : CCand) (hsel : values.getLast? = some selected) :
    (∀ (transcript : String) (k : FieldKey),
      (extractHeuristicBrief transcript).1 k =
        (resolveFieldEntry k (classifyFieldCandidates
          (extractCandidatesFromTurns (segmentTurns transcript)) k)).1) ∧
    (¬(selected.negated = true ∧ (key = .constraints ∨ key = .nonGoals)) →
      (resolveFieldEntry key values).1.value = some selected.value) ∧
    (valueConflictB values = true → polarityConflictB values selected = false →
      (resolveFieldEntry key values).2 =
        [⟨key, some selected.value, valueReason, values.map fun e => e.value⟩]) := by
  have hnegfalse : polarityConflictB values selected = false → valueConflictB values = true →
      selected.negated = false := by
    intro hp hv
    have hne : ((values.filter fun e => !e.negated).map fun e => e.normalizedValue).eraseDups.length ≠ 0 := by
      have := of_decide_eq_true hv
      omega
    have hfil : values.filter (fun e => !e.negated) ≠ [] := by
      intro hemp
      rw [hemp] at hne
      exact hne rfl
    obtain ⟨e, he⟩ := List.exists_mem_of_ne_nil _ hfil
    have hmem := List.mem_filter.mp he
    have h1 : e.negated = selected.negated := by
      have hh := List.any_eq_false.mp hp e hmem.1
      revert hh
      cases e.negated <;> cases selected.negated <;> simp
    have h2 : e.negated = false := by
      cases hne2 : e.negated
      · rfl
      · rw [hne2] at hmem; simp at hmem
    rw [← h1]
    exact h2
  refine ⟨fun _ _ => rfl, ?_, ?_⟩
  · intro h
    simp only [resolveFieldEntry, hsel, resolve_cond_false key selected h]
    simp
  · intro hv hp
    have hneg := hnegfalse hp hv
    have hcond : (selected.negated && (key == FieldKey.constraints || key == FieldKey.nonGoals)) = false := by
      rw [hneg]; simp
    simp only [resolveFieldEntry, hsel, hcond, conflictB, hp, hv, Bool.false_or,
      Bool.false_and, if_true, if_false, Bool.true_or]
    simp

/-- Witness for C4: two competing explicit objective statements resolve to
the later text and record the multiple-competing-values conflict. -/
theorem resolveFieldEntry_latest_wins_witness :
    (resolveFieldEntry .objective [c4MemoCand, c4FaqCand]).1.value =
      some ("Actually make it a concise FAQ for onboarding.") ∧
    (resolveFieldEntry .objective [c4MemoCand, c4FaqCand]).2 =
      [⟨.objective, some ("Actually make it a concise FAQ for onboarding."), valueReason,
        ["Draft a formal policy memo.", "Actually make it a concise FAQ for onboarding."]⟩] := by
  refine ⟨(resolveFieldEntry_latest_wins .objective [c4MemoCand, c4FaqCand] c4FaqCand
      (by decide)).2.1 (by decide), ?_⟩
  have h2 := (resolveFieldEntry_latest_wins .objective [c4MemoCand, c4FaqCand] c4FaqCand
      (by decide)).2.2 (by decide) (by decide)
  rw [h2]
  decide

/-- C5: negation override.  When the winner for constraints or nonGoals is
negated the resolved value is absent with the negation assumption; any
polarity disagreement records a conflict with the contradictory-statements
reason; and the concrete two-turn constraints transcript of the
specification yields an absent constraints value with such a conflict. -/
theorem resolveFieldEntry_negation_override (key : FieldKey) (values : List CCand)
    (selected : CCand) (hsel : values.getLast? = some selected) :
    (selected.negated = true → (key = .constraints ∨ key = .nonGoals) →
      (resolveFieldEntry key values).1.value = none ∧
      (resolveFieldEntry key values).1.assumptions = [negationAssumption]) ∧
    (polarityConflictB values selected = true →
      ∃ c, (resolveFieldEntry key values).2 = [c] ∧ c.field = key ∧
        c.reason = polarityReason) ∧
    (((extractHeuristicBrief negationTranscript).1 .constraints).value = none ∧
      ((extractHeuristicBrief negationTranscript).1 .constraints).assumptions =
        [negationAssumption] ∧
      ∃ c ∈ (extractHeuristicBrief negationTranscript).2,
        c.field = .constraints ∧ c.reason = polarityReason) := by
  refine ⟨?_, ?_, by decide, by decide, by decide⟩
  · intro hneg hk
    have hcond : (selected.negated && (key == FieldKey.constraints || key == FieldKey.nonGoals)) = true := by
      rw [hneg]; rcases hk with h | h <;> subst h <;> simp
    simp only [resolveFieldEntry, hsel, hcond]
    simp
  · intro hp
    simp only [resolveFieldEntry, hsel, conflictB, hp, Bool.true_or, if_true]
    exact ⟨_, rfl, rfl, rfl⟩

/-- Witness for C5: an affirmed then negated constraints candidate pair
resolves to an absent value and a contradictory-statements conflict. -/
theorem resolveFieldEntry_negation_override_witness :
    (resolveFieldEntry .constraints [c5AffCand, c5NegCand]).1.value = none ∧
    ∃ c, (resolveFieldEntry .constraints [c5AffCand, c5NegCand]).2 = [c] ∧
      c.field = .constraints ∧ c.reason = polarityReason := by
  refine ⟨((resolveFieldEntry_negation_override .constraints [c5AffCand, c5NegCand]
      c5NegCand (by decide)).1 (by decide) (Or.inl rfl)).1,
    (resolveFieldEntry_negation_override .constraints [c5AffCand, c5NegCand]
      c5NegCand (by decide)).2.1 (by decide)⟩

/-- C6: graceful model-failure fallback.  A throwing model call and an
undecodable reply each produce a result identical to the no-capability
result, whose fields and unresolved conflicts are the heuristic ones, with
no global assumptions and the heuristic-fallback tag. -/
theorem extractBrief_model_failure_fallback (t : String) (m : Option (List Message)) :
    extractBrief t m (some .failed) = extractBrief t m none ∧
    extractBrief t m (some .unparsed) = extractBrief t m none ∧
    (extractBrief t m none).fields = briefFieldKeys.map (fun key =>
      (key, (extractHeuristicBrief (normalizeHistoryInput t m).2.1).1 key)) ∧
    (extractBrief t m none).unresolvedConflicts =
      (extractHeuristicBrief (normalizeHistoryInput t m).2.1).2 ∧
    (extractBrief t m none).globalAssumptions = [] ∧
    (extractBrief t m none).normalizationMethod = "heuristic_fallback" :=
  ⟨rfl, rfl, rfl, rfl, rfl, rfl⟩

set_option maxHeartbeats 1000000 in
/-- C7 (amended): output tag vocabulary.  The normalization method is
heuristic_fallback exactly when no capability is supplied, the call fails,
or its reply does not decode, and llm_assisted when a decoded object is
arbitrated; every field source tag is heuristic or llm. -/
theorem extractBrief_tag_vocabulary (t : String) (m : Option (List Message))
    (cap : Option ModelOutcome) :
    ((extractBrief t m cap).normalizationMethod = "heuristic_fallback" ∨
      (extractBrief t m cap).normalizationMethod = "llm_assisted") ∧
    ((cap = none ∨ cap = some .failed ∨ cap = some .unparsed) →
      (extractBrief t m cap).normalizationMethod = "heuristic_fallback") ∧
    (∀ p, cap = some (.parsed p) →
      (extractBrief t m cap).normalizationMethod = "llm_assisted") ∧
    (∀ kv ∈ (extractBrief t m cap).fields,
      kv.2.source = "heuristic" ∨ kv.2.source = "llm") := by
  cases cap with
  | none =>
    refine ⟨Or.inl rfl, fun _ => rfl, fun p hp => Option.noConfusion hp, ?_⟩
    simp only [extractBrief]
    intro kv hkv
    obtain ⟨k, hk, rfl⟩ := List.mem_map.mp hkv
    exact Or.inl (heuristic_field_source _ _)
  | some o =>
    cases o with
    | failed =>
      refine ⟨Or.inl rfl, fun _ => rfl,
        fun p hp => ModelOutcome.noConfusion (Option.some.inj hp), ?_⟩
      simp only [extractBrief]
      intro kv hkv
      obtain ⟨k, hk, rfl⟩ := List.mem_map.mp hkv
      exact Or.inl (heuristic_field_source _ _)
    | unparsed =>
      refine ⟨Or.inl rfl, fun _ => rfl,
        fun p hp => ModelOutcome.noConfusion (Option.some.inj hp), ?_⟩
      simp only [extractBrief]
      intro kv hkv
      obtain ⟨k, hk, rfl⟩ := List.mem_map.mp hkv
      exact Or.inl (heuristic_field_source _ _)
    | parsed p =>
      refine ⟨Or.inr rfl, ?_, fun q hq => rfl, ?_⟩
      · rintro (h | h | h) <;> cases h
      · simp only [extractBrief]
        intro kv hkv
        obtain ⟨k, hk, rfl⟩ := List.mem_map.mp hkv
        exact merge_source _ _

/-- Witness for C7: with no capability the tag is heuristic_fallback, and
the objective entry of the empty-transcript result has an allowed source. -/
theorem extractBrief_tag_vocabulary_witness :
    (extractBrief "" none none).normalizationMethod = "heuristic_fallback" ∧
    ((FieldKey.objective,
        (extractHeuristicBrief ((normalizeHistoryInput "" none).2.1)).1 .objective).2.source
          = "heuristic" ∨
      (FieldKey.objective,
        (extractHeuristicBrief ((normalizeHistoryInput "" none).2.1)).1 .objective).2.source
          = "llm") := by
  refine ⟨(extractBrief_tag_vocabulary "" none none).2.1 (Or.inl rfl), ?_⟩
  refine (extractBrief_tag_vocabulary "" none none).2.2.2
    (FieldKey.objective,
      (extractHeuristicBrief ((normalizeHistoryInput "" none).2.1)).1 .objective) ?_
  simp only [extractBrief]
  exact List.mem_map.mpr ⟨.objective, by decide, rfl⟩

/-- Counterexample for C7: an extraction arbitrated with a decoded model
reply is tagged llm_assisted, not model_assisted, and carries a field
source llm that is neither model nor heuristic. -/
theorem extractBrief_tag_vocabulary_cex :
    (extractBrief "" none (some (.parsed c7ParsedModel))).normalizationMethod
      = "llm_assisted" ∧
    ("llm_assisted" : String) ≠ "model_assisted" ∧
    ("llm" : String) ∈ ((extractBrief "" none (some (.parsed c7ParsedModel))).fields.map
      fun kv => kv.2.source) ∧
    ("llm" : String) ≠ "model" ∧ ("llm" : String) ≠ "heuristic" := by
  have hX : (extractHeuristicBrief ((normalizeHistoryInput "" none).2.1)).1 .objective
      = noEvidenceResult := rfl
  have hAd : mergeAdopts noEvidenceResult (c7ParsedModel.fields .objective) = true := by
    unfold mergeAdopts c7ParsedModel llmValueOf llmConfOf noEvidenceResult
    norm_num [jsTruthyOptStr, jsTruthyStr]
    all_goals decide
  have hsrc : (mergeField ((extractHeuristicBrief ((normalizeHistoryInput "" none).2.1)).1
      .objective) (c7ParsedModel.fields .objective)).source = "llm" := by
    rw [hX]
    unfold mergeField
    rw [hAd]
    simp
  refine ⟨rfl, by decide, ?_, by decide, by decide⟩
  simp only [extractBrief]
  refine List.mem_map.mpr ⟨(FieldKey.objective,
    mergeField ((extractHeuristicBrief ((normalizeHistoryInput "" none).2.1)).1 .objective)
      (c7ParsedModel.fields .objective)), ?_, hsrc⟩
  exact List.mem_map.mpr ⟨.objective, by decide, rfl⟩

/-- C8 (amended): a statement with a leading label-colon-value pattern
whose label matches no known field name or alias yields no candidate at
all: detection returns a null key without falling through to the later
steps, and classification drops the statement for every field. -/
theorem detectField_unknown_label (s norm label rawVal : String)
    (h1 : explicitLabelSplit s = some (label, rawVal))
    (h2 : aliasLookup (jsTrim (lowerStr label)) = none) :
    (detectField s norm).key = none ∧ (detectField s norm).explicit = false ∧
    ∀ (c : Cand), c.statement = s → ∀ key : FieldKey,
      classifyFieldCandidates [c] key = [] := by
  have hd : detectField s norm = ⟨none, some (jsTrim rawVal), false, false⟩ := by
    unfold detectField
    rw [h1]
    simp [h2]
  refine ⟨by rw [hd], by rw [hd], ?_⟩
  intro c hc key
  unfold classifyFieldCandidates
  simp only [List.filterMap]
  rw [hc]
  have hd2 : detectField s c.normalized = ⟨none, some (jsTrim rawVal), false, false⟩ := by
    unfold detectField
    rw [h1]
    simp [h2]
  rw [hd2]

/-- Witness for C8 (amended): the deadline-labelled statement is dropped
by detection. -/
theorem detectField_unknown_label_witness :
    (detectField c8Statement (normalizeContent c8Statement)).key = none ∧
    classifyFieldCandidates [⟨c8Statement, 0, 0, normalizeContent c8Statement⟩]
      .constraints = [] := by
  refine ⟨(detectField_unknown_label c8Statement (normalizeContent c8Statement)
      ("deadline") ("must be done by friday") (by decide) (by decide)).1,
    (detectField_unknown_label c8Statement (normalizeContent c8Statement)
      ("deadline") ("must be done by friday") (by decide) (by decide)).2.2
      ⟨c8Statement, 0, 0, normalizeContent c8Statement⟩ rfl .constraints⟩

/-- Counterexample for C8: the statement deadline-colon-must-be-done-by-
friday has an unknown label, its normalized text matches the step-three
constraints patterns, yet detection returns a null key and no candidate is
produced for any field, contradicting the claimed fall-through. -/
theorem detectField_unknown_label_cex :
    (detectField c8Statement (normalizeContent c8Statement)).key = none ∧
    briefFieldPatternTest .constraints (normalizeContent c8Statement) = true ∧
    aliasLookup (jsTrim (lowerStr ("deadline"))) = none ∧
    (briefFieldKeys.all fun key =>
      classifyFieldCandidates [⟨c8Statement, 0, 0, normalizeContent c8Statement⟩] key
        == []) = true := by
  refine ⟨by decide, by decide, by decide, by decide⟩

set_option maxHeartbeats 1000000 in
/-- C9: result well-formedness.  For every transcript, message list and
model behavior, the extraction result carries exactly one field result per
field key, in declared order, and every confidence lies in the unit
interval. -/
theorem extractBrief_wellformed (t : String) (m : Option (List Message))
    (cap : Option ModelOutcome) :
    (extractBrief t m cap).fields.map Prod.fst = briefFieldKeys ∧
    ∀ kv ∈ (extractBrief t m cap).fields,
      0 ≤ kv.2.confidence ∧ kv.2.confidence ≤ 1 := by
  cases cap with
  | none =>
    constructor
    · simp only [extractBrief]
      simp [briefFieldKeys]
    · simp only [extractBrief]
      intro kv hkv
      obtain ⟨k, hk, rfl⟩ := List.mem_map.mp hkv
      exact heuristic_field_bounds _ _
  | some o =>
    cases o with
    | failed =>
      constructor
      · simp only [extractBrief]
        simp [briefFieldKeys]
      · simp only [extractBrief]
        intro kv hkv
        obtain ⟨k, hk, rfl⟩ := List.mem_map.mp hkv
        exact heuristic_field_bounds _ _
    | unparsed =>
      constructor
      · simp only [extractBrief]
        simp [briefFieldKeys]
      · simp only [extractBrief]
        intro kv hkv
        obtain ⟨k, hk, rfl⟩ := List.mem_map.mp hkv
        exact heuristic_field_bounds _ _
    | parsed p =>
      constructor
      · simp only [extractBrief]
        simp [briefFieldKeys]
      · simp only [extractBrief]
        intro kv hkv
        obtain ⟨k, hk, rfl⟩ := List.mem_map.mp hkv
        exact merge_conf_bounds _ _

/-- Witness for C9: the empty-transcript result lists the nine keys in
order, and its objective entry has a confidence in the unit interval. -/
theorem extractBrief_wellformed_witness :
    (extractBrief "" none none).fields.map Prod.fst = briefFieldKeys ∧
    (0 ≤ ((FieldKey.objective,
        (extractHeuristicBrief ((normalizeHistoryInput "" none).2.1)).1 .objective)).2.confidence ∧
      ((FieldKey.objective,
        (extractHeuristicBrief ((normalizeHistoryInput "" none).2.1)).1 .objective)).2.confidence ≤ 1) := by
  refine ⟨(extractBrief_wellformed "" none none).1, ?_⟩
  refine (extractBrief_wellformed "" none none).2
    (FieldKey.objective,
      (extractHeuristicBrief ((normalizeHistoryInput "" none).2.1)).1 .objective) ?_
  simp only [extractBrief]
  exact List.mem_map.mpr ⟨.objective, by decide, rfl⟩

/-- C10: an absent resolved value does not force confidence zero.  A
negated winner for constraints or nonGoals yields an absent value with
strictly positive calibrated confidence; a field with no candidates gets
confidence zero, any field with candidates gets strictly positive
confidence, and the concrete non-explicit negated constraints winner with
a conflict evaluates to 0.43. -/
theorem resolveFieldEntry_absent_positive (key : FieldKey) (values : List CCand)
    (selected : CCand) (hsel : values.getLast? = some selected) :
    (selected.negated = true → (key = .constraints ∨ key = .nonGoals) →
      (resolveFieldEntry key values).1.value = none ∧
      0 < (resolveFieldEntry key values).1.confidence) ∧
    (∀ k : FieldKey, (resolveFieldEntry k []).1.confidence = 0) ∧
    (0 < (resolveFieldEntry key values).1.confidence) ∧
    (resolveFieldEntry .constraints
      [⟨"constraints: Keep it concise and under 150 words.", 0, 0,
        "constraints: keep it concise and under 150 words.",
        "Keep it concise and under 150 words.", true, false, false,
        "keep it concise and under 150 words."⟩,
       ⟨"No constraints for now.", 1, 0, "no constraints for now.",
        "No constraints for now.", false, false, true,
        "no constraints for now."⟩]).1.confidence = 0.43 := by
  have hpos : 0 < (resolveFieldEntry key values).1.confidence := by
    simp only [resolveFieldEntry, hsel]
    split <;> exact calibrator_pos _ _ _
  refine ⟨?_, fun k => rfl, hpos, ?_⟩
  · intro hneg hk
    have hcond : (selected.negated && (key == FieldKey.constraints || key == FieldKey.nonGoals)) = true := by
      rw [hneg]; rcases hk with h | h <;> subst h <;> simp
    refine ⟨?_, hpos⟩
    simp only [resolveFieldEntry, hsel, hcond]
    simp
  · norm_num [resolveFieldEntry, conflictB, polarityConflictB, valueConflictB,
      fieldConfidenceCalibrators, clampConfidence, jsMax, jsMin]

/-- Witness for C10: a lone negated non-explicit constraints candidate
resolves to an absent value with positive confidence. -/
theorem resolveFieldEntry_absent_positive_witness :
    (resolveFieldEntry .constraints
      [⟨"No constraints for now.", 0, 0, "no constraints for now.",
        "No constraints for now.", false, false, true,
        "no constraints for now."⟩]).1.value = none ∧
    0 < (resolveFieldEntry .constraints
      [⟨"No constraints for now.", 0, 0, "no constraints for now.",
        "No constraints for now.", false, false, true,
        "no constraints for now."⟩]).1.confidence :=
  (resolveFieldEntry_absent_positive .constraints
    [⟨"No constraints for now.", 0, 0, "no constraints for now.",
      "No constraints for now.", false, false, true,
      "no constraints for now."⟩]
    ⟨"No constraints for now.", 0, 0, "no constraints for now.",
      "No constraints for now.", false, false, true,
      "no constraints for now."⟩ rfl).1 rfl (Or.inl rfl)

end PromptBuilder
